import Mathlib

/-!
Verification of the certified-payroll extraction engine
(`pdf_parser.py` and the field mapper of `main.py`).

Strings are modelled as `List Char`; Python floats produced by `float()` on
tokens of shape `\d+\.\d+` are modelled exactly as rationals; Python dicts
are modelled as insertion-ordered association lists with overwrite-in-place.
The regular expressions of the source are embedded as data (`RE`) and
executed by a backtracking matcher `runM` implementing Python `re` semantics
for the constructs the source uses: leftmost match, greedy single-character
quantifiers trying longest first, alternation trying branches left to right.
-/

namespace Payroll

abbrev Str := List Char

/-- Characters of a string literal. -/
def S (s : String) : Str := s.data

/-- Python's `\s` class (the whitespace also used by `str.strip()`). -/
def isWs (c : Char) : Bool :=
  c = ' ' || c = '\t' || c = '\n' || c = '\r' || c = '\x0b' || c = '\x0c'

/-- `[A-Z]`. -/
def isUp (c : Char) : Bool := 'A' ≤ c && c ≤ 'Z'

/-- `[0-9]`, Python's `\d` (ASCII). -/
def isDig (c : Char) : Bool := '0' ≤ c && c ≤ '9'

/-- Python's `\w` (ASCII). -/
def isWord (c : Char) : Bool :=
  ('a' ≤ c && c ≤ 'z') || isUp c || isDig c || c = '_'

/-- `.` in a pattern: any character except a newline. -/
def isDot (c : Char) : Bool := c ≠ '\n'

/-- `[^\n]`. -/
def isNotNl (c : Char) : Bool := c ≠ '\n'

/-- `[A-Z\s]`. -/
def upWs (c : Char) : Bool := isUp c || isWs c

/-- `[A-Z0-9\s]`. -/
def upDigWs (c : Char) : Bool := isUp c || isDig c || isWs c

/-- Python `str.strip()`: remove leading and trailing whitespace. -/
def pyStrip (s : Str) : Str :=
  ((s.dropWhile isWs).reverse.dropWhile isWs).reverse

/-- Python `str.replace(pat, rep)` for a one-character pattern. -/
def pyReplace1 (pat : Char) (rep : Str) (s : Str) : Str :=
  s.flatMap (fun c => if c = pat then rep else [c])

/-- Python `str.lower()` (the source only lower-cases ASCII). -/
def pyLower (s : Str) : Str := s.map Char.toLower

/-- Numeric value of a digit string. -/
def digitsVal (l : Str) : ℕ :=
  l.foldl (fun a c => 10 * a + (c.toNat - 48)) 0

/-- Python `float()` applied to a token of shape `\d+\.\d+`, modelled
exactly as a rational (all constants in the claims are representable):
`intpart.fracpart` denotes `(intpart * 10^k + fracpart) / 10^k`. -/
def pyFloat (s : Str) : ℚ :=
  let ip := s.takeWhile isDig
  let fp := (s.dropWhile isDig).drop 1
  Rat.divInt (digitsVal ip * 10 ^ fp.length + digitsVal fp : ℕ) (10 ^ fp.length : ℕ)

/-- Values stored in an employee record: Python strings or floats. -/
inductive Value where
  | str (s : Str)
  | num (q : ℚ)
deriving DecidableEq, Repr

/-- A Python dict, as an insertion-ordered association list. -/
abbrev Dict := List (Str × Value)

/-- Dict lookup (`d[k]` / `k in d`). -/
def dget? : Dict → Str → Option Value
  | [], _ => none
  | (k, v) :: d, key => if k = key then some v else dget? d key

/-- Dict store `d[k] = v`: overwrite in place, else append. -/
def dinsert : Dict → Str → Value → Dict
  | [], key, v => [(key, v)]
  | (k, w) :: d, key, v =>
      if k = key then (k, v) :: d else (k, w) :: dinsert d key v

/-- `employee.update(job_info)` where `job_info` maps strings to strings. -/
def dupdate (d : Dict) (ji : List (Str × Str)) : Dict :=
  ji.foldl (fun d kv => dinsert d kv.1 (.str kv.2)) d

/-! ## The regex engine -/

/-- The regular-expression constructs used by `pdf_parser.py`.  All
quantifiers in the source apply to single-character classes, so `plusCls`,
`starCls` and `repCls` quantify over a class directly. -/
inductive RE where
  | lit (l : Str)
  | cls (p : Char → Bool)
  | plusCls (p : Char → Bool)
  | starCls (p : Char → Bool)
  | repCls (p : Char → Bool) (n : Nat)
  | seq (a b : RE)
  | alt (a b : RE)
  | group (i : Nat) (r : RE)

/-- Captured groups of a match, in capture order. -/
abbrev Caps := List (Nat × Str)

/-- Backtracking matcher in success-continuation style.  `runM re s caps k`
tries to match `re` against a prefix of `s`; on each candidate it calls
`k consumed rest caps'` and returns the first `some`.  Candidate order is
Python's: greedy quantifiers longest first, alternation left to right. -/
def runM {α : Type} : RE → Str → Caps → (Str → Str → Caps → Option α) → Option α
  | .lit l, s, caps, k =>
      if l.isPrefixOf s then k l (s.drop l.length) caps else none
  | .cls p, s, caps, k =>
      match s with
      | [] => none
      | c :: t => if p c then k [c] t caps else none
  | .plusCls p, s, caps, k =>
      let m := (s.takeWhile p).length
      (List.range m).findSome? (fun i => k (s.take (m - i)) (s.drop (m - i)) caps)
  | .starCls p, s, caps, k =>
      let m := (s.takeWhile p).length
      (List.range (m + 1)).findSome? (fun i => k (s.take (m - i)) (s.drop (m - i)) caps)
  | .repCls p n, s, caps, k =>
      if n ≤ s.length && (s.take n).all p then k (s.take n) (s.drop n) caps else none
  | .seq a b, s, caps, k =>
      runM a s caps (fun ca ra capsa =>
        runM b ra capsa (fun cb rb capsb => k (ca ++ cb) rb capsb))
  | .alt a b, s, caps, k =>
      match runM a s caps k with
      | some r => some r
      | none => runM b s caps k
  | .group i r, s, caps, k =>
      runM r s caps (fun c rest caps2 => k c rest (caps2 ++ [(i, c)]))

/-- Try to match `re` at the start of `s`. -/
def runAt (re : RE) (s : Str) : Option (Str × Caps × Str) :=
  runM re s [] (fun c rest caps => some (c, caps, rest))

/-- `re.search`: leftmost match, returning consumed text, captures and the
text after the match. -/
def searchIn (re : RE) : Str → Option (Str × Caps × Str)
  | [] => runAt re []
  | s@(_ :: t) =>
      match runAt re s with
      | some r => some r
      | none => searchIn re t

/-- `match.group(i)`: value of capture group `i`, if captured. -/
def capGet (caps : Caps) (i : Nat) : Option Str :=
  (caps.find? (fun x => x.1 = i)).map Prod.snd

/-- `re.search` keeping only the captures. -/
def reSearch (re : RE) (s : Str) : Option Caps :=
  (searchIn re s).map (fun x => x.2.1)

/-- `re.finditer` worker: repeatedly search, continuing after each match
(advancing one character past an empty match, as Python does). -/
def findAllAux (re : RE) : Nat → Str → List Caps
  | 0, _ => []
  | fuel + 1, s =>
      match searchIn re s with
      | none => []
      | some (c, caps, rest) =>
          caps :: findAllAux re fuel (if c.isEmpty then rest.drop 1 else rest)

/-- `re.finditer`: the capture lists of all matches, in text order. -/
def findAll (re : RE) (s : Str) : List Caps :=
  findAllAux re (s.length + 1) s

/-! ## The patterns of `pdf_parser.py` -/

/-- `\d+\.\d+`. -/
def decRE : RE := .seq (.plusCls isDig) (.seq (.lit (S ".")) (.plusCls isDig))

/-- `([A-Z\s]+[A-Z])\s+(\*\*\*-\*\*-\d{4})`. -/
def name_pattern : RE :=
  .seq (.group 1 (.seq (.plusCls upWs) (.cls isUp)))
    (.seq (.plusCls isWs)
      (.group 2 (.seq (.lit (S "***-**-")) (.repCls isDig 4))))

/-- `([A-Z0-9\s]+)\s+([A-Z]+)\s+(\w+)\s+(\d+)`. -/
def address_pattern : RE :=
  .seq (.group 1 (.plusCls upDigWs))
    (.seq (.plusCls isWs)
      (.seq (.group 2 (.plusCls isUp))
        (.seq (.plusCls isWs)
          (.seq (.group 3 (.plusCls isWord))
            (.seq (.plusCls isWs) (.group 4 (.plusCls isDig)))))))

/-- `Class\s+.+\s+([A-Z]+)\s+Male`. -/
def class_pattern : RE :=
  .seq (.lit (S "Class"))
    (.seq (.plusCls isWs)
      (.seq (.plusCls isDot)
        (.seq (.plusCls isWs)
          (.seq (.group 1 (.plusCls isUp))
            (.seq (.plusCls isWs) (.lit (S "Male")))))))

/-- `(Single|Married)\s+\d+`. -/
def marital_pattern : RE :=
  .seq (.group 1 (.alt (.lit (S "Single")) (.lit (S "Married"))))
    (.seq (.plusCls isWs) (.plusCls isDig))

/-- `R:\s+(\d+\.\d+).*O:\s+(\d+\.\d+)`. -/
def hours_pattern : RE :=
  .seq (.lit (S "R:"))
    (.seq (.plusCls isWs)
      (.seq (.group 1 decRE)
        (.seq (.starCls isDot)
          (.seq (.lit (S "O:"))
            (.seq (.plusCls isWs) (.group 2 decRE))))))

/-- `(\d+\.\d+)\s+(\d+\.\d+)\s+(\d+\.\d+)\s+(\d+\.\d+)`. -/
def pay_pattern : RE :=
  .seq (.group 1 decRE)
    (.seq (.plusCls isWs)
      (.seq (.group 2 decRE)
        (.seq (.plusCls isWs)
          (.seq (.group 3 decRE)
            (.seq (.plusCls isWs) (.group 4 decRE))))))

/-- The fixed fringe-benefit label enumeration, in alternation order. -/
def fringe_labels : List Str :=
  [S "AMF 494", S "ANNUITY", S "H&W", S "JATC 494", S "LMCC 494",
   S "NEBF 494", S "NECA-494", S "NEIF-494", S "PENSION", S "VAC/HOL"]

/-- `(AMF 494|ANNUITY|H&W|JATC 494|LMCC 494|NEBF 494|NECA-494|NEIF-494|PENSION|VAC/HOL)`. -/
def fringe_alt : RE :=
  .alt (.lit (S "AMF 494")) (.alt (.lit (S "ANNUITY")) (.alt (.lit (S "H&W"))
    (.alt (.lit (S "JATC 494")) (.alt (.lit (S "LMCC 494"))
      (.alt (.lit (S "NEBF 494")) (.alt (.lit (S "NECA-494"))
        (.alt (.lit (S "NEIF-494")) (.alt (.lit (S "PENSION")) (.lit (S "VAC/HOL"))))))))))

/-- `(<labels>)\s+(\d+\.\d+)\s+(\d+\.\d+)`. -/
def fringe_pattern : RE :=
  .seq (.group 1 fringe_alt)
    (.seq (.plusCls isWs)
      (.seq (.group 2 decRE)
        (.seq (.plusCls isWs) (.group 3 decRE))))

/-- `DUES\s+(\d+\.\d+)`. -/
def dues_pattern : RE :=
  .seq (.lit (S "DUES")) (.seq (.plusCls isWs) (.group 1 decRE))

/-- `Total\s+(\d+\.\d+)`. -/
def total_pattern : RE :=
  .seq (.lit (S "Total")) (.seq (.plusCls isWs) (.group 1 decRE))

/-- `Job\s*\n([^\n]+)` and the other job-info patterns. -/
def labelLineRE (label : Str) : RE :=
  .seq (.lit label) (.seq (.starCls isWs) (.seq (.lit (S "\n")) (.group 1 (.plusCls isNotNl))))

/-- `<label>\s*([^\n]+)` for `Job Number:` / `Week Ending:` / `Payroll #`. -/
def labelInlineRE (label : Str) : RE :=
  .seq (.lit label) (.seq (.starCls isWs) (.group 1 (.plusCls isNotNl)))

/-- The `job_patterns` table of `extract_job_info`, in insertion order.  The
two hardcoded address literals have no capture group, exactly as in the
source. -/
def job_patterns : List (Str × RE) :=
  [(S "job_name", labelLineRE (S "Job")),
   (S "job_number", labelInlineRE (S "Job Number:")),
   (S "week_ending", labelInlineRE (S "Week Ending:")),
   (S "payroll_number", labelInlineRE (S "Payroll #")),
   (S "contractor_name", labelLineRE (S "Contractor")),
   (S "contractor_address", .lit (S "BUTLER, WI 53007")),
   (S "customer_name", labelLineRE (S "Customer")),
   (S "customer_address", .lit (S "BROOKFIELD, WI 53005"))]

/-! ## `extract_job_info` -/

/-- One entry of the `extract_job_info` loop body: on a match take
`match.group(1).strip()` — which raises `IndexError("no such group")` when
the pattern has no group 1 — and the empty string when there is no match. -/
def jobValue (fp : Str) (re : RE) : Except Str Str :=
  match reSearch re fp with
  | some caps =>
      match capGet caps 1 with
      | some g => .ok (pyStrip g)
      | none => .error (S "no such group")
  | none => .ok []

/-- The `extract_job_info` loop over a pattern table, in order; the first
`IndexError` raised propagates. -/
def jobLoop (fp : Str) : List (Str × RE) → Except Str (List (Str × Str))
  | [] => .ok []
  | kp :: rest =>
      match jobValue fp kp.2 with
      | .error e => .error e
      | .ok v =>
          match jobLoop fp rest with
          | .error e => .error e
          | .ok tail => .ok ((kp.1, v) :: tail)

/-- `extract_job_info` on the first page's text: iterate `job_patterns` in
order, storing the stripped first capture group or `""`; propagates the
`IndexError` of a group-less pattern that matches. -/
def extract_job_info_text (fp : Str) : Except Str (List (Str × Str)) :=
  jobLoop fp job_patterns

/-! ## `_extract_employee_info` -/

/-- The `employee` dict after the mandatory identity gate. -/
def baseEmployee (ncaps : Caps) : Dict :=
  dinsert (dinsert [] (S "name") (.str (pyStrip ((capGet ncaps 1).getD []))))
    (S "ssn") (.str ((capGet ncaps 2).getD []))

/-- Address step: store address/city/state/zip if the pattern matches. -/
def stepAddress (page : Str) (d : Dict) : Dict :=
  match reSearch address_pattern page with
  | some caps =>
      dinsert (dinsert (dinsert (dinsert d
        (S "address") (.str (pyStrip ((capGet caps 1).getD []))))
        (S "city") (.str (pyStrip ((capGet caps 2).getD []))))
        (S "state") (.str (pyStrip ((capGet caps 3).getD []))))
        (S "zip") (.str (pyStrip ((capGet caps 4).getD [])))
  | none => d

/-- Job-classification step. -/
def stepClass (page : Str) (d : Dict) : Dict :=
  match reSearch class_pattern page with
  | some caps => dinsert d (S "job_class") (.str (pyStrip ((capGet caps 1).getD [])))
  | none => d

/-- Marital-status step. -/
def stepMarital (page : Str) (d : Dict) : Dict :=
  match reSearch marital_pattern page with
  | some caps => dinsert d (S "marital_status") (.str (pyStrip ((capGet caps 1).getD [])))
  | none => d

/-- Hours step: `regular_hours` and `overtime_hours` as floats. -/
def stepHours (page : Str) (d : Dict) : Dict :=
  match reSearch hours_pattern page with
  | some caps =>
      dinsert (dinsert d
        (S "regular_hours") (.num (pyFloat ((capGet caps 1).getD []))))
        (S "overtime_hours") (.num (pyFloat ((capGet caps 2).getD [])))
  | none => d

/-- Pay-figures step: four positional decimals. -/
def stepPay (page : Str) (d : Dict) : Dict :=
  match reSearch pay_pattern page with
  | some caps =>
      dinsert (dinsert (dinsert (dinsert d
        (S "pay_rate") (.num (pyFloat ((capGet caps 1).getD []))))
        (S "gross_pay") (.num (pyFloat ((capGet caps 2).getD []))))
        (S "federal_tax") (.num (pyFloat ((capGet caps 3).getD []))))
        (S "net_pay") (.num (pyFloat ((capGet caps 4).getD [])))
  | none => d

/-- Normalise a fringe-benefit label into a key stem:
`.replace(" ", "_").replace("&", "and").replace("-", "_").lower()`. -/
def benefitStem (l : Str) : Str :=
  pyLower (pyReplace1 '-' (S "_") (pyReplace1 '&' (S "and") (pyReplace1 ' ' (S "_") l)))

/-- All fringe matches of a page, in text order: `(stem, rate, amount)`. -/
def fringe_matches (page : Str) : List (Str × ℚ × ℚ) :=
  (findAll fringe_pattern page).map (fun caps =>
    (benefitStem ((capGet caps 1).getD []),
     pyFloat ((capGet caps 2).getD []),
     pyFloat ((capGet caps 3).getD [])))

/-- Store `<stem>_rate` / `<stem>_amount` for each fringe match in order. -/
def applyFringe (d : Dict) (ms : List (Str × ℚ × ℚ)) : Dict :=
  ms.foldl (fun d m =>
    dinsert (dinsert d (m.1 ++ S "_rate") (.num m.2.1)) (m.1 ++ S "_amount") (.num m.2.2)) d

/-- Fringe-benefits step. -/
def stepFringe (page : Str) (d : Dict) : Dict :=
  applyFringe d (fringe_matches page)

/-- Dues step. -/
def stepDues (page : Str) (d : Dict) : Dict :=
  match reSearch dues_pattern page with
  | some caps => dinsert d (S "dues_amount") (.num (pyFloat ((capGet caps 1).getD [])))
  | none => d

/-- Totals step. -/
def stepTotal (page : Str) (d : Dict) : Dict :=
  match reSearch total_pattern page with
  | some caps => dinsert d (S "total_deductions") (.num (pyFloat ((capGet caps 1).getD [])))
  | none => d

/-- `_extract_employee_info`: `None` when the identity gate fails, else the
record built by the independent optional steps. -/
def extract_employee_info (page : Str) : Option Dict :=
  match reSearch name_pattern page with
  | none => none
  | some ncaps =>
      some (stepTotal page (stepDues page (stepFringe page (stepPay page
        (stepHours page (stepMarital page (stepClass page (stepAddress page
          (baseEmployee ncaps)))))))))

/-! ## `extract_employee_records` and `parse` -/

/-- The per-page eligibility test of `extract_employee_records`. -/
def markersPresent (page : Str) : Bool :=
  decide (S "Name / Address" <:+: page) && decide (S "Hours Worked This Job" <:+: page)

/-- Contribution of one page to the employee list: skip ineligible pages,
apply the identity gate, merge in the job info (`employee.update`).
The Python `if employee:` test is falsy for an empty dict. -/
def pageRecords (ji : List (Str × Str)) (page : Str) : List Dict :=
  if markersPresent page then
    match extract_employee_info page with
    | some e => if e.isEmpty then [] else [dupdate e ji]
    | none => []
  else []

/-- The loop of `extract_employee_records` over all pages. -/
def recordsOf (ji : List (Str × Str)) (pages : List Str) : List Dict :=
  pages.flatMap (pageRecords ji)

/-- The mutable state of a `PayrollPDFParser` instance.  `pdfPages` stands
for the fixed document behind `pdf_path` (a page whose extracted text is
empty models `extract_text()` returning nothing for it). -/
structure PayState where
  pdfPages : List Str
  text_pages : List Str
  job_info : List (Str × Str)
  employees : List Dict
deriving DecidableEq, Repr

/-- A freshly constructed instance for a document. -/
def freshState (pdf : List Str) : PayState := ⟨pdf, [], [], []⟩

/-- `extract_text`: append every non-empty page text to `self.text_pages`
and return the accumulated list. -/
def extract_text (st : PayState) : PayState × List Str :=
  let tp := st.text_pages ++ st.pdfPages.filter (fun t => !t.isEmpty)
  ({ st with text_pages := tp }, tp)

/-- `extract_job_info` as a method: extract text first if none yet, then run
the pattern table against the first page (or `""`). -/
def extract_job_info (st : PayState) : Except Str (PayState × List (Str × Str)) :=
  let st1 := if st.text_pages.isEmpty then (extract_text st).1 else st
  let fp := st1.text_pages.head?.getD []
  (extract_job_info_text fp).map (fun ji => ({ st1 with job_info := ji }, ji))

/-- `extract_employee_records` as a method. -/
def extract_employee_records (st : PayState) : PayState × List Dict :=
  let st1 := if st.text_pages.isEmpty then (extract_text st).1 else st
  let es := recordsOf st1.job_info st1.text_pages
  ({ st1 with employees := es }, es)

/-- The parse result: `{"job_info": ..., "employees": ...}`. -/
structure ParseResult where
  job_info : List (Str × Str)
  employees : List Dict
deriving DecidableEq, Repr

/-- `parse`: run the three phases in order on the instance state. -/
def parse (st : PayState) : Except Str (PayState × ParseResult) :=
  let st1 := (extract_text st).1
  (extract_job_info st1).map (fun p =>
    let st3 := (extract_employee_records p.1).1
    (st3, ⟨st3.job_info, st3.employees⟩))

/-! ## `map_fields` (from `main.py`) -/

/-- One output row: for each `(template_field, pdf_field)` of the mapping in
order, copy the record's value or the empty string. -/
def mapRow (mapping : List (Str × Str)) (e : Dict) : Dict :=
  mapping.foldl (fun row kv =>
    dinsert row kv.1 (match dget? e kv.2 with | some v => v | none => .str [])) []

/-- `map_fields`: one output row per input record. -/
def map_fields (employees : List Dict) (mapping : List (Str × Str)) : List Dict :=
  employees.map (mapRow mapping)

/-! ## A declarative view of single matches

`Matches re c ext` says: `c` is one way for `re` to match, producing the
capture list `ext`.  It is the soundness specification of `runM`. -/

inductive Matches : RE → Str → Caps → Prop where
  | lit (l : Str) : Matches (.lit l) l []
  | cls {p : Char → Bool} {c : Char} : p c = true → Matches (.cls p) [c] []
  | plusCls {p : Char → Bool} {c : Str} :
      c ≠ [] → (∀ x ∈ c, p x = true) → Matches (.plusCls p) c []
  | starCls {p : Char → Bool} {c : Str} :
      (∀ x ∈ c, p x = true) → Matches (.starCls p) c []
  | repCls {p : Char → Bool} {n : Nat} {c : Str} :
      c.length = n → (∀ x ∈ c, p x = true) → Matches (.repCls p n) c []
  | seq {a b : RE} {ca cb : Str} {e1 e2 : Caps} :
      Matches a ca e1 → Matches b cb e2 → Matches (.seq a b) (ca ++ cb) (e1 ++ e2)
  | altL {a b : RE} {c : Str} {e : Caps} : Matches a c e → Matches (.alt a b) c e
  | altR {a b : RE} {c : Str} {e : Caps} : Matches b c e → Matches (.alt a b) c e
  | group {i : Nat} {r : RE} {c : Str} {e : Caps} :
      Matches r c e → Matches (.group i r) c (e ++ [(i, c)])

/-! ## Spec-side comparison definitions -/

/-- The masked-SSN token `\*\*\*-\*\*-\d{4}` on its own. -/
def ssnTokenRE : RE := .seq (.lit (S "***-**-")) (.repCls isDig 4)

/-- Index of the leftmost match of `re` in `s`, if any. -/
def searchPos (re : RE) : Str → Option Nat
  | [] => if (runAt re []).isSome then some 0 else none
  | s@(_ :: t) =>
      if (runAt re s).isSome then some 0 else (searchPos re t).map (· + 1)

/-- Modelled from the words of claim C9: the maximal run of uppercase
letters and whitespace ending at an uppercase letter immediately before the
first masked-SSN token (the run is computed backwards from the token,
skipping the whitespace separating it from the name). -/
def spec_maximal_name (page : Str) : Option Str :=
  (searchPos ssnTokenRE page).map (fun i =>
    (((page.take i).reverse.dropWhile isWs).takeWhile upWs).reverse)

/-- Modelled from the spec's words (`§4.2`, and claim C3: the parse result
is "purely a function of the input text"): job info from the first
non-empty page text, employee records from all of them, no instance state. -/
def pure_parse (pdf : List Str) : Except Str ParseResult :=
  (extract_job_info_text ((pdf.filter (fun t => !t.isEmpty)).head?.getD [])).map
    (fun ji => ⟨ji, recordsOf ji (pdf.filter (fun t => !t.isEmpty))⟩)

/-- The stems of the ten fringe-benefit labels. -/
def fringe_stems : List Str := fringe_labels.map benefitStem

/-- The last fringe match of a page whose stem is `st` (text order). -/
def lastFringe (page : Str) (st : Str) : Option (Str × ℚ × ℚ) :=
  (fringe_matches page).reverse.find? (fun m => m.1 = st)

/-! ## Concrete page texts used by the claims -/

/-- A page containing both marker phrases and the seven lines of C1's
scenario, arranged so that the positional heuristics bind the intended
values: the address line does not directly follow a line ending in
digits, and the four pay figures do not directly follow the hours line. -/
def demoPage : Str :=
  S "Name / Address\nJOHN A SMITH ***-**-1234\nHours Worked This Job\n123 MAIN ST MADISON WI 53701\nR: 40.00 O: 5.00\nx\n25.00 1100.00 150.00 900.00\nPENSION 2.50 100.00\nDUES 15.00\nTotal 265.00"

/-- The record that C1 claims, exactly as extraction produces it on
`demoPage` (rationals: `40.0 = 40`, `2.5 = Rat.divInt 5 2`, ...). -/
def demoRecord : Dict :=
  [(S "name", .str (S "JOHN A SMITH")), (S "ssn", .str (S "***-**-1234")),
   (S "address", .str (S "123 MAIN ST")), (S "city", .str (S "MADISON")),
   (S "state", .str (S "WI")), (S "zip", .str (S "53701")),
   (S "regular_hours", .num 40), (S "overtime_hours", .num 5),
   (S "pay_rate", .num 25), (S "gross_pay", .num 1100),
   (S "federal_tax", .num 150), (S "net_pay", .num 900),
   (S "pension_rate", .num (Rat.divInt 5 2)), (S "pension_amount", .num 100),
   (S "dues_amount", .num 15), (S "total_deductions", .num 265)]

/-- The same markers and seven lines in the order C1 lists them, with no
other material: the natural arrangement of the claimed scenario. -/
def naturalPage : Str :=
  S "Name / Address\nHours Worked This Job\nJOHN A SMITH ***-**-1234\n123 MAIN ST MADISON WI 53701\nR: 40.00 O: 5.00\n25.00 1100.00 150.00 900.00\nPENSION 2.50 100.00\nDUES 15.00\nTotal 265.00"

/-- An eligible page whose employee-name line is preceded by an all-caps
header line (C9). -/
def headerPage : Str :=
  S "Name / Address\nHours Worked This Job\nACME CORP\nJOHN A SMITH ***-**-1234"

/-- An eligible page with two PENSION lines and one H&W line (C5). -/
def fringePage : Str :=
  S "Name / Address\nHours Worked This Job\nJOHN A SMITH ***-**-1234\nPENSION 1.00 2.00\nH&W 3.00 4.00\nPENSION 2.50 100.00"

/-- An eligible page whose hours and dues figures lack fractional parts
(C10). -/
def sparsePage : Str :=
  S "Name / Address\nHours Worked This Job\nJOHN A SMITH ***-**-1234\nR: 40 O: 5.00\nDUES 15\nTotal 265.00"

/-- A minimal eligible page producing one record (C3, C8 witnesses). -/
def tinyPage : Str := S "Name / Address\nHours Worked This Job\nAB ***-**-1234"

/-- Job info with every key empty, as extracted from a page with none of
the labels. -/
def emptyJobInfo : List (Str × Str) := job_patterns.map (fun kp => (kp.1, []))

/-- Run `parse` twice on the same instance, as two successive calls on one
`PayrollPDFParser`; returns both results when neither run raises. -/
def parseTwice (pdf : List Str) : Option (ParseResult × ParseResult) :=
  match parse (freshState pdf) with
  | .ok (st1, r1) =>
      match parse st1 with
      | .ok (_, r2) => some (r1, r2)
      | .error _ => none
  | .error _ => none

/-- A token of shape `\d+\.\d+`: digits, one decimal point, digits. -/
def DecShape (t : Str) : Prop :=
  ∃ a b, a ≠ [] ∧ b ≠ [] ∧ (∀ x ∈ a, isDig x = true) ∧ (∀ x ∈ b, isDig x = true) ∧
    t = a ++ S "." ++ b

/-- Every numeric value of the dict is `float()` of a `\d+\.\d+` token. -/
def NumOK (d : Dict) : Prop :=
  ∀ k q, dget? d k = some (.num q) → ∃ t, DecShape t ∧ q = pyFloat t

/-- Job info extracted from `tinyPage` as page 1. -/
def tinyJobInfo : List (Str × Str) :=
  [(S "job_name", S "AB ***-**-1234"), (S "job_number", []), (S "week_ending", []),
   (S "payroll_number", []), (S "contractor_name", []), (S "contractor_address", []),
   (S "customer_name", []), (S "customer_address", [])]

/-- The single record of the `[tinyPage]` document, job info merged in. -/
def tinyRecord : Dict :=
  [(S "name", .str (S "AB")), (S "ssn", .str (S "***-**-1234")),
   (S "job_name", .str (S "AB ***-**-1234")), (S "job_number", .str []),
   (S "week_ending", .str []), (S "payroll_number", .str []),
   (S "contractor_name", .str []), (S "contractor_address", .str []),
   (S "customer_name", .str []), (S "customer_address", .str [])]

/-- The instance state after parsing the `[tinyPage]` document. -/
def tinyState : PayState := ⟨[tinyPage], [tinyPage], tinyJobInfo, [tinyRecord]⟩

/-- Extraction result on `fringePage`: the duplicated PENSION label keeps
the values of its last occurrence. -/
def fringeRecord : Dict :=
  [(S "name", .str (S "JOHN A SMITH")), (S "ssn", .str (S "***-**-1234")),
   (S "pension_rate", .num (Rat.divInt 5 2)), (S "pension_amount", .num 100),
   (S "handw_rate", .num 3), (S "handw_amount", .num 4)]

/-- Extraction result on `sparsePage`: the fraction-less numbers match no
pattern, so their keys are absent. -/
def sparseRecord : Dict :=
  [(S "name", .str (S "JOHN A SMITH")), (S "ssn", .str (S "***-**-1234")),
   (S "total_deductions", .num 265)]

/-! ## Dictionary lemmas -/

theorem dinsert_ne_nil (d : Dict) (k : Str) (v : Value) : dinsert d k v ≠ [] := by
  cases d with
  | nil => simp [dinsert]
  | cons kv d => obtain ⟨k0, w⟩ := kv; simp only [dinsert]; split <;> simp

theorem dget?_dinsert_self (d : Dict) (k : Str) (v : Value) :
    dget? (dinsert d k v) k = some v := by
  induction d with
  | nil => simp [dinsert, dget?]
  | cons kv d ih =>
      obtain ⟨k0, w⟩ := kv
      by_cases h : k0 = k
      · simp [dinsert, h, dget?]
      · simp [dinsert, h, dget?, ih]

theorem dget?_dinsert_ne (d : Dict) {k k2 : Str} (v : Value) (h : k ≠ k2) :
    dget? (dinsert d k v) k2 = dget? d k2 := by
  induction d with
  | nil => simp [dinsert, dget?, h]
  | cons kv d ih =>
      obtain ⟨k0, w⟩ := kv
      by_cases h0 : k0 = k
      · subst h0; simp [dinsert, dget?, h]
      · simp only [dinsert, h0, if_false, dget?]
        split <;> simp [ih]

theorem dget?_foldl_dinsert_not_mem {γ : Type} (f : Str × γ → Value) :
    ∀ (l : List (Str × γ)) (d : Dict) (k : Str), k ∉ l.map Prod.fst →
      dget? (l.foldl (fun d kv => dinsert d kv.1 (f kv)) d) k = dget? d k := by
  intro l
  induction l with
  | nil => intro d k _; rfl
  | cons kv l ih =>
      intro d k hk
      simp only [List.map_cons, List.mem_cons, not_or] at hk
      rw [List.foldl_cons, ih _ _ hk.2, dget?_dinsert_ne _ _ (Ne.symm hk.1)]

theorem dget?_foldl_dinsert_mem {γ : Type} (f : Str × γ → Value) :
    ∀ (l : List (Str × γ)) (d : Dict) (k : Str) (v : γ),
      (l.map Prod.fst).Nodup → (k, v) ∈ l →
      dget? (l.foldl (fun d kv => dinsert d kv.1 (f kv)) d) k = some (f (k, v)) := by
  intro l
  induction l with
  | nil => intro d k v _ h; cases h
  | cons kv l ih =>
      intro d k v hnd hm
      rw [List.foldl_cons]
      simp only [List.map_cons, List.nodup_cons] at hnd
      rcases List.mem_cons.mp hm with heq | htail
      · subst heq
        rw [dget?_foldl_dinsert_not_mem f l _ k hnd.1, dget?_dinsert_self]
      · exact ih _ _ _ hnd.2 htail

theorem dget?_dupdate_mem (d : Dict) {ji : List (Str × Str)} {k v : Str}
    (hnd : (ji.map Prod.fst).Nodup) (hm : (k, v) ∈ ji) :
    dget? (dupdate d ji) k = some (.str v) :=
  dget?_foldl_dinsert_mem (fun kv => .str kv.2) ji d k v hnd hm

/-! ## Key-shape lemmas: the fringe keys stay clear of the later steps -/

theorem ne_of_getLast_append (a b suf1 suf2 : Str) (h1 : suf1 ≠ []) (h2 : suf2 ≠ [])
    (hne : suf1.getLast? ≠ suf2.getLast?) : a ++ suf1 ≠ b ++ suf2 := by
  intro h
  apply hne
  rw [← List.getLast?_append_of_ne_nil a h1, ← List.getLast?_append_of_ne_nil b h2, h]

theorem rate_key_ne_amount_key (a b : Str) : a ++ S "_rate" ≠ b ++ S "_amount" :=
  ne_of_getLast_append a b (S "_rate") (S "_amount") (by simp [S]) (by simp [S]) (by simp [S])

theorem rate_key_ne_dues (a : Str) : a ++ S "_rate" ≠ S "dues_amount" := by
  have := ne_of_getLast_append a [] (S "_rate") (S "dues_amount")
    (by simp [S]) (by simp [S]) (by simp [S])
  simpa using this

theorem amount_key_ne_dues {a : Str} (h : a ≠ S "dues") : a ++ S "_amount" ≠ S "dues_amount" := by
  intro heq
  apply h
  have : a ++ S "_amount" = S "dues" ++ S "_amount" := by simpa [S] using heq
  exact List.append_cancel_right this

theorem rate_key_ne_total (a : Str) : a ++ S "_rate" ≠ S "total_deductions" := by
  have := ne_of_getLast_append a [] (S "_rate") (S "total_deductions")
    (by simp [S]) (by simp [S]) (by simp [S])
  simpa using this

theorem amount_key_ne_total (a : Str) : a ++ S "_amount" ≠ S "total_deductions" := by
  have := ne_of_getLast_append a [] (S "_amount") (S "total_deductions")
    (by simp [S]) (by simp [S]) (by simp [S])
  simpa using this

theorem rate_key_inj {a b : Str} (h : a ++ S "_rate" = b ++ S "_rate") : a = b :=
  List.append_cancel_right h

theorem amount_key_inj {a b : Str} (h : a ++ S "_amount" = b ++ S "_amount") : a = b :=
  List.append_cancel_right h

/-! ## `applyFringe`: last match wins -/

theorem dget?_applyFringe_rate :
    ∀ (ms : List (Str × ℚ × ℚ)) (d : Dict) (st : Str),
      dget? (applyFringe d ms) (st ++ S "_rate") =
        match ms.reverse.find? (fun m => m.1 = st) with
        | some m => some (.num m.2.1)
        | none => dget? d (st ++ S "_rate") := by
  intro ms
  induction ms with
  | nil => intro d st; simp [applyFringe]
  | cons m ms ih =>
      intro d st
      have step : applyFringe d (m :: ms) =
          applyFringe (dinsert (dinsert d (m.1 ++ S "_rate") (.num m.2.1))
            (m.1 ++ S "_amount") (.num m.2.2)) ms := rfl
      rw [step, ih]
      rw [List.reverse_cons, List.find?_append]
      cases hfind : ms.reverse.find? (fun x => x.1 = st) with
      | some x => simp
      | none =>
          simp only [Option.or]
          by_cases hst : m.1 = st
          · subst hst
            rw [List.find?_cons_of_pos _ (by simp)]
            rw [dget?_dinsert_ne _ _ (rate_key_ne_amount_key m.1 m.1).symm,
              dget?_dinsert_self]
          · rw [List.find?_cons_of_neg _ (by simp [hst])]
            rw [dget?_dinsert_ne _ _ (Ne.symm (rate_key_ne_amount_key st m.1)),
              dget?_dinsert_ne _ _ (fun hh => hst (rate_key_inj hh))]
            simp

theorem dget?_applyFringe_amount :
    ∀ (ms : List (Str × ℚ × ℚ)) (d : Dict) (st : Str),
      dget? (applyFringe d ms) (st ++ S "_amount") =
        match ms.reverse.find? (fun m => m.1 = st) with
        | some m => some (.num m.2.2)
        | none => dget? d (st ++ S "_amount") := by
  intro ms
  induction ms with
  | nil => intro d st; simp [applyFringe]
  | cons m ms ih =>
      intro d st
      have step : applyFringe d (m :: ms) =
          applyFringe (dinsert (dinsert d (m.1 ++ S "_rate") (.num m.2.1))
            (m.1 ++ S "_amount") (.num m.2.2)) ms := rfl
      rw [step, ih]
      rw [List.reverse_cons, List.find?_append]
      cases hfind : ms.reverse.find? (fun x => x.1 = st) with
      | some x => simp
      | none =>
          simp only [Option.or]
          by_cases hst : m.1 = st
          · subst hst
            rw [List.find?_cons_of_pos _ (by simp)]
            rw [dget?_dinsert_self]
          · rw [List.find?_cons_of_neg _ (by simp [hst])]
            rw [dget?_dinsert_ne _ _ (fun hh => hst (amount_key_inj hh)),
              dget?_dinsert_ne _ _ (rate_key_ne_amount_key m.1 st)]
            simp

/-! ## The record of a gated page is never the empty dict -/

theorem applyFringe_ne_nil :
    ∀ (ms : List (Str × ℚ × ℚ)) (d : Dict), d ≠ [] → applyFringe d ms ≠ [] := by
  intro ms
  induction ms with
  | nil => intro d h; exact h
  | cons m ms ih =>
      intro d _
      have step : applyFringe d (m :: ms) =
          applyFringe (dinsert (dinsert d (m.1 ++ S "_rate") (.num m.2.1))
            (m.1 ++ S "_amount") (.num m.2.2)) ms := rfl
      rw [step]
      exact ih _ (dinsert_ne_nil _ _ _)

theorem stepAddress_ne_nil {page : Str} {d : Dict} (h : d ≠ []) :
    stepAddress page d ≠ [] := by
  unfold stepAddress
  cases reSearch address_pattern page <;> simp [dinsert_ne_nil, h]

theorem stepClass_ne_nil {page : Str} {d : Dict} (h : d ≠ []) :
    stepClass page d ≠ [] := by
  unfold stepClass
  cases reSearch class_pattern page <;> simp [dinsert_ne_nil, h]

theorem stepMarital_ne_nil {page : Str} {d : Dict} (h : d ≠ []) :
    stepMarital page d ≠ [] := by
  unfold stepMarital
  cases reSearch marital_pattern page <;> simp [dinsert_ne_nil, h]

theorem stepHours_ne_nil {page : Str} {d : Dict} (h : d ≠ []) :
    stepHours page d ≠ [] := by
  unfold stepHours
  cases reSearch hours_pattern page <;> simp [dinsert_ne_nil, h]

theorem stepPay_ne_nil {page : Str} {d : Dict} (h : d ≠ []) :
    stepPay page d ≠ [] := by
  unfold stepPay
  cases reSearch pay_pattern page <;> simp [dinsert_ne_nil, h]

theorem stepFringe_ne_nil {page : Str} {d : Dict} (h : d ≠ []) :
    stepFringe page d ≠ [] :=
  applyFringe_ne_nil _ _ h

theorem stepDues_ne_nil {page : Str} {d : Dict} (h : d ≠ []) :
    stepDues page d ≠ [] := by
  unfold stepDues
  cases reSearch dues_pattern page <;> simp [dinsert_ne_nil, h]

theorem stepTotal_ne_nil {page : Str} {d : Dict} (h : d ≠ []) :
    stepTotal page d ≠ [] := by
  unfold stepTotal
  cases reSearch total_pattern page <;> simp [dinsert_ne_nil, h]

theorem extract_some_ne_nil {page : Str} {e : Dict}
    (h : extract_employee_info page = some e) : e ≠ [] := by
  unfold extract_employee_info at h
  cases hn : reSearch name_pattern page with
  | none => rw [hn] at h; cases h
  | some ncaps =>
      rw [hn] at h
      have hb : baseEmployee ncaps ≠ [] := dinsert_ne_nil _ _ _
      cases h
      exact stepTotal_ne_nil (stepDues_ne_nil (stepFringe_ne_nil (stepPay_ne_nil
        (stepHours_ne_nil (stepMarital_ne_nil (stepClass_ne_nil
          (stepAddress_ne_nil hb)))))))

theorem extract_none_iff {page : Str} :
    extract_employee_info page = none ↔ reSearch name_pattern page = none := by
  unfold extract_employee_info
  cases reSearch name_pattern page <;> simp

/-! ## Soundness of the matcher -/

theorem findSome?_eq_some_exists {α β : Type _} {f : α → Option β} :
    ∀ {l : List α} {r : β}, l.findSome? f = some r → ∃ a ∈ l, f a = some r := by
  intro l
  induction l with
  | nil => intro r h; simp [List.findSome?] at h
  | cons a l ih =>
      intro r h
      rw [List.findSome?_cons] at h
      cases hf : f a with
      | some b =>
          rw [hf] at h
          exact ⟨a, List.mem_cons_self a l, hf.trans h⟩
      | none =>
          rw [hf] at h
          obtain ⟨x, hx, hfx⟩ := ih h
          exact ⟨x, List.mem_cons_of_mem a hx, hfx⟩

theorem mem_take_takeWhile {p : Char → Bool} {s : Str} {j : Nat}
    (hj : j ≤ (s.takeWhile p).length) : ∀ x ∈ s.take j, p x = true := by
  intro x hx
  have hpre : s.takeWhile p <+: s := List.takeWhile_prefix p
  obtain ⟨t2, ht2⟩ := hpre
  rw [← ht2, List.take_append_of_le_length hj] at hx
  exact List.mem_takeWhile_imp (List.take_subset _ _ hx)

theorem runM_sound {α : Type} :
    ∀ (re : RE) (s : Str) (caps : Caps) (k : Str → Str → Caps → Option α) (r : α),
      runM re s caps k = some r →
      ∃ c rest ext, s = c ++ rest ∧ Matches re c ext ∧ k c rest (caps ++ ext) = some r := by
  intro re
  induction re with
  | lit l =>
      intro s caps k r h
      simp only [runM] at h
      split at h
      case isTrue hpre =>
        obtain ⟨t, ht⟩ := List.isPrefixOf_iff_prefix.mp hpre
        refine ⟨l, s.drop l.length, [], ?_, Matches.lit l, by simpa using h⟩
        rw [← ht, List.drop_left]
      case isFalse => cases h
  | cls p =>
      intro s caps k r h
      simp only [runM] at h
      cases s with
      | nil => cases h
      | cons c t =>
          have h2 : (if p c = true then k [c] t caps else none) = some r := h
          split at h2
          · rename_i hp
            exact ⟨[c], t, [], rfl, Matches.cls hp, by simpa using h2⟩
          · cases h2
  | plusCls p =>
      intro s caps k r h
      simp only [runM] at h
      obtain ⟨i, hi, hk⟩ := findSome?_eq_some_exists h
      rw [List.mem_range] at hi
      have hmle : (s.takeWhile p).length ≤ s.length := (List.takeWhile_prefix p).length_le
      refine ⟨s.take ((s.takeWhile p).length - i), s.drop ((s.takeWhile p).length - i), [],
        (List.take_append_drop _ s).symm, ?_, by simpa using hk⟩
      refine Matches.plusCls ?_ (mem_take_takeWhile (by omega))
      apply List.ne_nil_of_length_pos
      rw [List.length_take]
      omega
  | starCls p =>
      intro s caps k r h
      simp only [runM] at h
      obtain ⟨i, hi, hk⟩ := findSome?_eq_some_exists h
      rw [List.mem_range] at hi
      refine ⟨s.take ((s.takeWhile p).length - i), s.drop ((s.takeWhile p).length - i), [],
        (List.take_append_drop _ s).symm, ?_, by simpa using hk⟩
      exact Matches.starCls (mem_take_takeWhile (by omega))
  | repCls p n =>
      intro s caps k r h
      simp only [runM] at h
      split at h
      case isTrue hc =>
        simp only [Bool.and_eq_true, decide_eq_true_eq, List.all_eq_true] at hc
        refine ⟨s.take n, s.drop n, [], (List.take_append_drop _ s).symm, ?_, by simpa using h⟩
        exact Matches.repCls (by rw [List.length_take]; omega) hc.2
      case isFalse => cases h
  | seq a b iha ihb =>
      intro s caps k r h
      simp only [runM] at h
      obtain ⟨ca, ra, e1, hs1, hm1, hk1⟩ := iha _ _ _ _ h
      obtain ⟨cb, rb, e2, hs2, hm2, hk2⟩ := ihb _ _ _ _ hk1
      refine ⟨ca ++ cb, rb, e1 ++ e2, ?_, Matches.seq hm1 hm2, ?_⟩
      · rw [hs1, hs2, List.append_assoc]
      · rw [List.append_assoc] at hk2; exact hk2
  | alt a b iha ihb =>
      intro s caps k r h
      simp only [runM] at h
      cases ha : runM a s caps k with
      | some r2 =>
          rw [ha] at h
          obtain ⟨c, rest, e, hs, hm, hk⟩ := iha _ _ _ _ ha
          cases h
          exact ⟨c, rest, e, hs, Matches.altL hm, hk⟩
      | none =>
          rw [ha] at h
          obtain ⟨c, rest, e, hs, hm, hk⟩ := ihb _ _ _ _ h
          exact ⟨c, rest, e, hs, Matches.altR hm, hk⟩
  | group i rr ih =>
      intro s caps k r h
      simp only [runM] at h
      obtain ⟨c, rest, e, hs, hm, hk⟩ := ih _ _ _ _ h
      refine ⟨c, rest, e ++ [(i, c)], hs, Matches.group hm, ?_⟩
      rw [List.append_assoc] at hk
      exact hk

theorem runAt_sound {re : RE} {s c : Str} {caps : Caps} {rest : Str}
    (h : runAt re s = some (c, caps, rest)) :
    s = c ++ rest ∧ Matches re c caps := by
  obtain ⟨c2, rest2, ext, hs, hm, hk⟩ := runM_sound re s [] _ _ h
  simp only [Option.some.injEq, Prod.mk.injEq] at hk
  obtain ⟨h1, h2, h3⟩ := hk
  subst h1; subst h3
  rw [List.nil_append] at h2
  subst h2
  exact ⟨hs, hm⟩

theorem searchIn_sound {re : RE} :
    ∀ {s c : Str} {caps : Caps} {rest : Str},
      searchIn re s = some (c, caps, rest) →
      ∃ pre, s = pre ++ c ++ rest ∧ Matches re c caps := by
  intro s
  induction s with
  | nil =>
      intro c caps rest h
      simp only [searchIn] at h
      obtain ⟨hs, hm⟩ := runAt_sound h
      exact ⟨[], by simpa using hs, hm⟩
  | cons a t ih =>
      intro c caps rest h
      simp only [searchIn] at h
      cases ha : runAt re (a :: t) with
      | some r2 =>
          rw [ha] at h
          cases h
          obtain ⟨hs, hm⟩ := runAt_sound ha
          exact ⟨[], by simpa using hs, hm⟩
      | none =>
          rw [ha] at h
          obtain ⟨pre, hs, hm⟩ := ih h
          exact ⟨a :: pre, by simp [hs], hm⟩

theorem reSearch_sound {re : RE} {s : Str} {caps : Caps}
    (h : reSearch re s = some caps) : ∃ c, Matches re c caps := by
  unfold reSearch at h
  cases hs : searchIn re s with
  | none => rw [hs] at h; cases h
  | some x =>
      rw [hs] at h
      obtain ⟨c0, caps0, rest0⟩ := x
      obtain ⟨pre, _, hm⟩ := searchIn_sound hs
      cases h
      exact ⟨c0, hm⟩

theorem findAllAux_sound {re : RE} :
    ∀ (fuel : Nat) (s : Str) (caps : Caps), caps ∈ findAllAux re fuel s →
      ∃ c, Matches re c caps := by
  intro fuel
  induction fuel with
  | zero => intro s caps h; cases h
  | succ fuel ih =>
      intro s caps h
      simp only [findAllAux] at h
      cases hs : searchIn re s with
      | none => rw [hs] at h; cases h
      | some x =>
          rw [hs] at h
          obtain ⟨c0, caps0, rest0⟩ := x
          have h2 : caps ∈ caps0 :: findAllAux re fuel
              (if c0.isEmpty then rest0.drop 1 else rest0) := h
          rcases List.mem_cons.mp h2 with heq | htail
          · subst heq
            obtain ⟨pre, _, hm⟩ := searchIn_sound hs
            exact ⟨c0, hm⟩
          · exact ih _ _ htail

theorem findAll_sound {re : RE} {s : Str} {caps : Caps}
    (h : caps ∈ findAll re s) : ∃ c, Matches re c caps :=
  findAllAux_sound _ _ _ h

/-! ## Inversion lemmas for `Matches` -/

theorem matches_lit_inv {l c : Str} {e : Caps} (h : Matches (.lit l) c e) :
    c = l ∧ e = [] := by cases h; exact ⟨rfl, rfl⟩

theorem matches_plusCls_inv {p : Char → Bool} {c : Str} {e : Caps}
    (h : Matches (.plusCls p) c e) : c ≠ [] ∧ (∀ x ∈ c, p x = true) ∧ e = [] := by
  cases h; exact ⟨‹_›, ‹_›, rfl⟩

theorem matches_starCls_inv {p : Char → Bool} {c : Str} {e : Caps}
    (h : Matches (.starCls p) c e) : (∀ x ∈ c, p x = true) ∧ e = [] := by
  cases h; exact ⟨‹_›, rfl⟩

theorem matches_seq_inv {a b : RE} {c : Str} {e : Caps} (h : Matches (.seq a b) c e) :
    ∃ ca cb e1 e2, Matches a ca e1 ∧ Matches b cb e2 ∧ c = ca ++ cb ∧ e = e1 ++ e2 := by
  cases h; exact ⟨_, _, _, _, ‹_›, ‹_›, rfl, rfl⟩

theorem matches_alt_inv {a b : RE} {c : Str} {e : Caps} (h : Matches (.alt a b) c e) :
    Matches a c e ∨ Matches b c e := by
  cases h
  · exact Or.inl ‹_›
  · exact Or.inr ‹_›

theorem matches_group_inv {i : Nat} {r : RE} {c : Str} {e : Caps}
    (h : Matches (.group i r) c e) : ∃ e0, Matches r c e0 ∧ e = e0 ++ [(i, c)] := by
  cases h; exact ⟨_, ‹_›, rfl⟩

theorem decRE_inv {c : Str} {e : Caps} (h : Matches decRE c e) :
    e = [] ∧ DecShape c := by
  rcases matches_seq_inv h with ⟨ca, cb, e1, e2, h1, h2, rfl, rfl⟩
  rcases matches_plusCls_inv h1 with ⟨hne, hdig, rfl⟩
  rcases matches_seq_inv h2 with ⟨cb1, cb2, e3, e4, h3, h4, rfl, rfl⟩
  rcases matches_lit_inv h3 with ⟨rfl, rfl⟩
  rcases matches_plusCls_inv h4 with ⟨hne2, hdig2, rfl⟩
  exact ⟨rfl, ca, cb2, hne, hne2, hdig, hdig2, by simp⟩

theorem group_decRE_inv {i : Nat} {c : Str} {e : Caps}
    (h : Matches (.group i decRE) c e) : e = [(i, c)] ∧ DecShape c := by
  rcases matches_group_inv h with ⟨e0, h0, rfl⟩
  rcases decRE_inv h0 with ⟨rfl, hd⟩
  exact ⟨rfl, hd⟩

theorem hours_caps {c : Str} {e : Caps} (h : Matches hours_pattern c e) :
    ∃ d1 d2, DecShape d1 ∧ DecShape d2 ∧ e = [(1, d1), (2, d2)] := by
  rcases matches_seq_inv h with ⟨_, _, _, _, hl, h2, rfl, rfl⟩
  rcases matches_lit_inv hl with ⟨rfl, rfl⟩
  rcases matches_seq_inv h2 with ⟨_, _, _, _, hw, h3, rfl, rfl⟩
  rcases matches_plusCls_inv hw with ⟨-, -, rfl⟩
  rcases matches_seq_inv h3 with ⟨d1, _, _, _, hg1, h4, rfl, rfl⟩
  rcases group_decRE_inv hg1 with ⟨rfl, hd1⟩
  rcases matches_seq_inv h4 with ⟨_, _, _, _, hst, h5, rfl, rfl⟩
  rcases matches_starCls_inv hst with ⟨-, rfl⟩
  rcases matches_seq_inv h5 with ⟨_, _, _, _, hl2, h6, rfl, rfl⟩
  rcases matches_lit_inv hl2 with ⟨rfl, rfl⟩
  rcases matches_seq_inv h6 with ⟨_, _, _, _, hw2, hg2, rfl, rfl⟩
  rcases matches_plusCls_inv hw2 with ⟨-, -, rfl⟩
  rcases group_decRE_inv hg2 with ⟨rfl, hd2⟩
  exact ⟨_, _, hd1, hd2, by simp⟩

theorem pay_caps {c : Str} {e : Caps} (h : Matches pay_pattern c e) :
    ∃ d1 d2 d3 d4, DecShape d1 ∧ DecShape d2 ∧ DecShape d3 ∧ DecShape d4 ∧
      e = [(1, d1), (2, d2), (3, d3), (4, d4)] := by
  rcases matches_seq_inv h with ⟨d1, _, _, _, hg1, h2, rfl, rfl⟩
  rcases group_decRE_inv hg1 with ⟨rfl, hd1⟩
  rcases matches_seq_inv h2 with ⟨_, _, _, _, hw, h3, rfl, rfl⟩
  rcases matches_plusCls_inv hw with ⟨-, -, rfl⟩
  rcases matches_seq_inv h3 with ⟨d2, _, _, _, hg2, h4, rfl, rfl⟩
  rcases group_decRE_inv hg2 with ⟨rfl, hd2⟩
  rcases matches_seq_inv h4 with ⟨_, _, _, _, hw2, h5, rfl, rfl⟩
  rcases matches_plusCls_inv hw2 with ⟨-, -, rfl⟩
  rcases matches_seq_inv h5 with ⟨d3, _, _, _, hg3, h6, rfl, rfl⟩
  rcases group_decRE_inv hg3 with ⟨rfl, hd3⟩
  rcases matches_seq_inv h6 with ⟨_, _, _, _, hw3, hg4, rfl, rfl⟩
  rcases matches_plusCls_inv hw3 with ⟨-, -, rfl⟩
  rcases group_decRE_inv hg4 with ⟨rfl, hd4⟩
  exact ⟨_, _, _, _, hd1, hd2, hd3, hd4, by simp⟩

theorem dues_caps {c : Str} {e : Caps} (h : Matches dues_pattern c e) :
    ∃ d1, DecShape d1 ∧ e = [(1, d1)] := by
  rcases matches_seq_inv h with ⟨_, _, _, _, hl, h2, rfl, rfl⟩
  rcases matches_lit_inv hl with ⟨rfl, rfl⟩
  rcases matches_seq_inv h2 with ⟨_, _, _, _, hw, hg, rfl, rfl⟩
  rcases matches_plusCls_inv hw with ⟨-, -, rfl⟩
  rcases group_decRE_inv hg with ⟨rfl, hd⟩
  exact ⟨_, hd, by simp⟩

theorem total_caps {c : Str} {e : Caps} (h : Matches total_pattern c e) :
    ∃ d1, DecShape d1 ∧ e = [(1, d1)] := by
  rcases matches_seq_inv h with ⟨_, _, _, _, hl, h2, rfl, rfl⟩
  rcases matches_lit_inv hl with ⟨rfl, rfl⟩
  rcases matches_seq_inv h2 with ⟨_, _, _, _, hw, hg, rfl, rfl⟩
  rcases matches_plusCls_inv hw with ⟨-, -, rfl⟩
  rcases group_decRE_inv hg with ⟨rfl, hd⟩
  exact ⟨_, hd, by simp⟩

theorem fringe_alt_inv {c : Str} {e : Caps} (h : Matches fringe_alt c e) :
    c ∈ fringe_labels ∧ e = [] := by
  rcases matches_alt_inv h with h | h
  · rcases matches_lit_inv h with ⟨rfl, rfl⟩; exact ⟨by simp [fringe_labels], rfl⟩
  rcases matches_alt_inv h with h | h
  · rcases matches_lit_inv h with ⟨rfl, rfl⟩; exact ⟨by simp [fringe_labels], rfl⟩
  rcases matches_alt_inv h with h | h
  · rcases matches_lit_inv h with ⟨rfl, rfl⟩; exact ⟨by simp [fringe_labels], rfl⟩
  rcases matches_alt_inv h with h | h
  · rcases matches_lit_inv h with ⟨rfl, rfl⟩; exact ⟨by simp [fringe_labels], rfl⟩
  rcases matches_alt_inv h with h | h
  · rcases matches_lit_inv h with ⟨rfl, rfl⟩; exact ⟨by simp [fringe_labels], rfl⟩
  rcases matches_alt_inv h with h | h
  · rcases matches_lit_inv h with ⟨rfl, rfl⟩; exact ⟨by simp [fringe_labels], rfl⟩
  rcases matches_alt_inv h with h | h
  · rcases matches_lit_inv h with ⟨rfl, rfl⟩; exact ⟨by simp [fringe_labels], rfl⟩
  rcases matches_alt_inv h with h | h
  · rcases matches_lit_inv h with ⟨rfl, rfl⟩; exact ⟨by simp [fringe_labels], rfl⟩
  rcases matches_alt_inv h with h | h
  · rcases matches_lit_inv h with ⟨rfl, rfl⟩; exact ⟨by simp [fringe_labels], rfl⟩
  · rcases matches_lit_inv h with ⟨rfl, rfl⟩; exact ⟨by simp [fringe_labels], rfl⟩

theorem fringe_caps {c : Str} {e : Caps} (h : Matches fringe_pattern c e) :
    ∃ l d1 d2, l ∈ fringe_labels ∧ DecShape d1 ∧ DecShape d2 ∧
      e = [(1, l), (2, d1), (3, d2)] := by
  rcases matches_seq_inv h with ⟨l2, _, _, _, hg, h2, rfl, rfl⟩
  rcases matches_group_inv hg with ⟨e0, ha, rfl⟩
  rcases fringe_alt_inv ha with ⟨hmem, rfl⟩
  rcases matches_seq_inv h2 with ⟨_, _, _, _, hw, h3, rfl, rfl⟩
  rcases matches_plusCls_inv hw with ⟨-, -, rfl⟩
  rcases matches_seq_inv h3 with ⟨d1, _, _, _, hg2, h4, rfl, rfl⟩
  rcases group_decRE_inv hg2 with ⟨rfl, hd1⟩
  rcases matches_seq_inv h4 with ⟨_, _, _, _, hw2, hg3, rfl, rfl⟩
  rcases matches_plusCls_inv hw2 with ⟨-, -, rfl⟩
  rcases group_decRE_inv hg3 with ⟨rfl, hd2⟩
  exact ⟨l2, d1, _, hmem, hd1, hd2, by simp⟩

/-! ## Every numeric field comes from a `\d+\.\d+` token -/

theorem numOK_nil : NumOK [] := by intro k q h; cases h

theorem numOK_dinsert_str {d : Dict} {k0 s : Str} (h : NumOK d) :
    NumOK (dinsert d k0 (.str s)) := by
  intro k q hk
  by_cases hkk : k0 = k
  · subst hkk; rw [dget?_dinsert_self] at hk; cases hk
  · rw [dget?_dinsert_ne _ _ hkk] at hk; exact h k q hk

theorem numOK_dinsert_dec {d : Dict} {k0 t : Str} (h : NumOK d) (ht : DecShape t) :
    NumOK (dinsert d k0 (.num (pyFloat t))) := by
  intro k q hk
  by_cases hkk : k0 = k
  · subst hkk
    rw [dget?_dinsert_self] at hk
    simp only [Option.some.injEq, Value.num.injEq] at hk
    exact ⟨t, ht, hk.symm⟩
  · rw [dget?_dinsert_ne _ _ hkk] at hk; exact h k q hk

theorem numOK_baseEmployee (ncaps : Caps) : NumOK (baseEmployee ncaps) :=
  numOK_dinsert_str (numOK_dinsert_str numOK_nil)

theorem numOK_stepAddress {page : Str} {d : Dict} (h : NumOK d) :
    NumOK (stepAddress page d) := by
  unfold stepAddress
  cases reSearch address_pattern page
  · exact h
  · exact numOK_dinsert_str (numOK_dinsert_str (numOK_dinsert_str (numOK_dinsert_str h)))

theorem numOK_stepClass {page : Str} {d : Dict} (h : NumOK d) :
    NumOK (stepClass page d) := by
  unfold stepClass
  cases reSearch class_pattern page
  · exact h
  · exact numOK_dinsert_str h

theorem numOK_stepMarital {page : Str} {d : Dict} (h : NumOK d) :
    NumOK (stepMarital page d) := by
  unfold stepMarital
  cases reSearch marital_pattern page
  · exact h
  · exact numOK_dinsert_str h

theorem numOK_stepHours {page : Str} {d : Dict} (h : NumOK d) :
    NumOK (stepHours page d) := by
  unfold stepHours
  cases hr : reSearch hours_pattern page with
  | none => exact h
  | some caps =>
      obtain ⟨c, hm⟩ := reSearch_sound hr
      obtain ⟨d1, d2, hd1, hd2, rfl⟩ := hours_caps hm
      exact numOK_dinsert_dec (numOK_dinsert_dec h hd1) hd2

theorem numOK_stepPay {page : Str} {d : Dict} (h : NumOK d) :
    NumOK (stepPay page d) := by
  unfold stepPay
  cases hr : reSearch pay_pattern page with
  | none => exact h
  | some caps =>
      obtain ⟨c, hm⟩ := reSearch_sound hr
      obtain ⟨d1, d2, d3, d4, hd1, hd2, hd3, hd4, rfl⟩ := pay_caps hm
      exact numOK_dinsert_dec (numOK_dinsert_dec (numOK_dinsert_dec
        (numOK_dinsert_dec h hd1) hd2) hd3) hd4

theorem fringe_matches_spec {page : Str} {m : Str × ℚ × ℚ}
    (hm : m ∈ fringe_matches page) :
    m.1 ∈ fringe_stems ∧ (∃ t, DecShape t ∧ m.2.1 = pyFloat t) ∧
      (∃ t, DecShape t ∧ m.2.2 = pyFloat t) := by
  unfold fringe_matches at hm
  rcases List.mem_map.mp hm with ⟨caps, hcaps, rfl⟩
  obtain ⟨c, hmt⟩ := findAll_sound hcaps
  obtain ⟨l, d1, d2, hl, hd1, hd2, rfl⟩ := fringe_caps hmt
  exact ⟨List.mem_map_of_mem benefitStem hl, ⟨d1, hd1, rfl⟩, ⟨d2, hd2, rfl⟩⟩

theorem numOK_applyFringe :
    ∀ (ms : List (Str × ℚ × ℚ)) (d : Dict), NumOK d →
      (∀ m ∈ ms, (∃ t, DecShape t ∧ m.2.1 = pyFloat t) ∧
        (∃ t, DecShape t ∧ m.2.2 = pyFloat t)) →
      NumOK (applyFringe d ms) := by
  intro ms
  induction ms with
  | nil => intro d h _; exact h
  | cons m ms ih =>
      intro d h hms
      have step : applyFringe d (m :: ms) =
          applyFringe (dinsert (dinsert d (m.1 ++ S "_rate") (.num m.2.1))
            (m.1 ++ S "_amount") (.num m.2.2)) ms := rfl
      rw [step]
      obtain ⟨⟨t1, ht1, hv1⟩, ⟨t2, ht2, hv2⟩⟩ := hms m (List.mem_cons_self m ms)
      rw [hv1, hv2]
      refine ih _ (numOK_dinsert_dec (numOK_dinsert_dec h ht1) ht2) ?_
      intro m2 hm2
      exact hms m2 (List.mem_cons_of_mem m hm2)

theorem numOK_stepFringe {page : Str} {d : Dict} (h : NumOK d) :
    NumOK (stepFringe page d) :=
  numOK_applyFringe _ _ h (fun _ hm => (fringe_matches_spec hm).2)

theorem numOK_stepDues {page : Str} {d : Dict} (h : NumOK d) :
    NumOK (stepDues page d) := by
  unfold stepDues
  cases hr : reSearch dues_pattern page with
  | none => exact h
  | some caps =>
      obtain ⟨c, hm⟩ := reSearch_sound hr
      obtain ⟨d1, hd1, rfl⟩ := dues_caps hm
      exact numOK_dinsert_dec h hd1

theorem numOK_stepTotal {page : Str} {d : Dict} (h : NumOK d) :
    NumOK (stepTotal page d) := by
  unfold stepTotal
  cases hr : reSearch total_pattern page with
  | none => exact h
  | some caps =>
      obtain ⟨c, hm⟩ := reSearch_sound hr
      obtain ⟨d1, hd1, rfl⟩ := total_caps hm
      exact numOK_dinsert_dec h hd1

theorem extract_numOK {page : Str} {e : Dict}
    (h : extract_employee_info page = some e) : NumOK e := by
  unfold extract_employee_info at h
  cases hn : reSearch name_pattern page with
  | none => rw [hn] at h; cases h
  | some ncaps =>
      rw [hn] at h
      cases h
      exact numOK_stepTotal (numOK_stepDues (numOK_stepFringe (numOK_stepPay
        (numOK_stepHours (numOK_stepMarital (numOK_stepClass (numOK_stepAddress
          (numOK_baseEmployee ncaps))))))))

/-! ## The fringe keys survive the dues and totals steps -/

theorem dget?_stepDues_rate {page : Str} {d : Dict} (st : Str) :
    dget? (stepDues page d) (st ++ S "_rate") = dget? d (st ++ S "_rate") := by
  unfold stepDues
  cases reSearch dues_pattern page
  · rfl
  · exact dget?_dinsert_ne _ _ (Ne.symm (rate_key_ne_dues st))

theorem dget?_stepDues_amount {page : Str} {d : Dict} {st : Str} (hst : st ≠ S "dues") :
    dget? (stepDues page d) (st ++ S "_amount") = dget? d (st ++ S "_amount") := by
  unfold stepDues
  cases reSearch dues_pattern page
  · rfl
  · exact dget?_dinsert_ne _ _ (Ne.symm (amount_key_ne_dues hst))

theorem dget?_stepTotal_rate {page : Str} {d : Dict} (st : Str) :
    dget? (stepTotal page d) (st ++ S "_rate") = dget? d (st ++ S "_rate") := by
  unfold stepTotal
  cases reSearch total_pattern page
  · rfl
  · exact dget?_dinsert_ne _ _ (Ne.symm (rate_key_ne_total st))

theorem dget?_stepTotal_amount {page : Str} {d : Dict} (st : Str) :
    dget? (stepTotal page d) (st ++ S "_amount") = dget? d (st ++ S "_amount") := by
  unfold stepTotal
  cases reSearch total_pattern page
  · rfl
  · exact dget?_dinsert_ne _ _ (Ne.symm (amount_key_ne_total st))

/-! ## Structure of `extract_job_info` and `parse` -/

theorem jobLoop_keys {fp : Str} :
    ∀ {l : List (Str × RE)} {ji : List (Str × Str)},
      jobLoop fp l = .ok ji → ji.map Prod.fst = l.map Prod.fst := by
  intro l
  induction l with
  | nil => intro ji h; cases h; rfl
  | cons kp l ih =>
      intro ji h
      unfold jobLoop at h
      cases hv : jobValue fp kp.2 with
      | error e => rw [hv] at h; cases h
      | ok v =>
          rw [hv] at h
          cases ht : jobLoop fp l with
          | error e => rw [ht] at h; cases h
          | ok tail =>
              rw [ht] at h
              cases h
              simp [ih ht]

theorem extract_job_info_text_keys {fp : Str} {ji : List (Str × Str)}
    (h : extract_job_info_text fp = .ok ji) :
    ji.map Prod.fst = job_patterns.map Prod.fst :=
  jobLoop_keys h

theorem refill_eq (pdf tp0 : List Str) (ji : List (Str × Str)) (es : List Dict) :
    (if (tp0 ++ pdf.filter (fun t => !t.isEmpty)).isEmpty
      then (extract_text ⟨pdf, tp0 ++ pdf.filter (fun t => !t.isEmpty), ji, es⟩).1
      else ⟨pdf, tp0 ++ pdf.filter (fun t => !t.isEmpty), ji, es⟩)
     = ⟨pdf, tp0 ++ pdf.filter (fun t => !t.isEmpty), ji, es⟩ := by
  by_cases h : (tp0 ++ pdf.filter (fun t => !t.isEmpty)).isEmpty
  · have h1 : tp0 ++ pdf.filter (fun t => !t.isEmpty) = [] := by simpa using h
    have h2 : pdf.filter (fun t => !t.isEmpty) = [] := (List.append_eq_nil.mp h1).2
    simp [extract_text, h, h1, h2]
  · simp [h]

theorem parse_run (st : PayState) :
    parse st =
      (extract_job_info_text
          ((st.text_pages ++ st.pdfPages.filter (fun t => !t.isEmpty)).head?.getD [])).map
        (fun ji =>
          (⟨st.pdfPages, st.text_pages ++ st.pdfPages.filter (fun t => !t.isEmpty), ji,
            recordsOf ji (st.text_pages ++ st.pdfPages.filter (fun t => !t.isEmpty))⟩,
           ⟨ji, recordsOf ji (st.text_pages ++ st.pdfPages.filter (fun t => !t.isEmpty))⟩)) := by
  obtain ⟨pdf, tp0, ji0, es0⟩ := st
  show (extract_job_info (extract_text ⟨pdf, tp0, ji0, es0⟩).1).map _ = _
  have hx : (extract_text ⟨pdf, tp0, ji0, es0⟩).1 =
      ⟨pdf, tp0 ++ pdf.filter (fun t => !t.isEmpty), ji0, es0⟩ := rfl
  rw [hx]
  unfold extract_job_info
  simp only []
  simp only [refill_eq]
  cases hj : extract_job_info_text
      ((tp0 ++ pdf.filter (fun t => !t.isEmpty)).head?.getD []) with
  | error e => rfl
  | ok ji =>
      simp only [Except.map]
      unfold extract_employee_records
      simp only [refill_eq]

theorem head?_self_append (l : List Str) :
    ((l ++ l).head?.getD ([] : Str)) = l.head?.getD [] := by
  cases l <;> simp

theorem recordsOf_append (ji : List (Str × Str)) (l1 l2 : List Str) :
    recordsOf ji (l1 ++ l2) = recordsOf ji l1 ++ recordsOf ji l2 := by
  unfold recordsOf
  exact List.flatMap_append _ _ _

theorem find?_mem_isSome {α : Type _} {p : α → Bool} :
    ∀ {l : List α} {x : α}, x ∈ l → p x = true → ∃ y, l.find? p = some y := by
  intro l
  induction l with
  | nil => intro x hx _; cases hx
  | cons a l ih =>
      intro x hx hp
      rcases List.mem_cons.mp hx with rfl | htail
      · exact ⟨x, List.find?_cons_of_pos _ hp⟩
      · cases ha : p a
        · obtain ⟨y, hy⟩ := ih htail hp
          exact ⟨y, by rw [List.find?_cons_of_neg _ (by simp [ha]), hy]⟩
        · exact ⟨a, List.find?_cons_of_pos _ ha⟩

theorem pageRecords_length (ji : List (Str × Str)) (pg : Str) :
    (pageRecords ji pg).length =
      if markersPresent pg ∧ (reSearch name_pattern pg).isSome then 1 else 0 := by
  unfold pageRecords
  by_cases hm : markersPresent pg
  · simp only [hm, if_true]
    cases he : extract_employee_info pg with
    | none =>
        have hn : reSearch name_pattern pg = none := extract_none_iff.mp he
        simp [hn]
    | some e =>
        have hne : e ≠ [] := extract_some_ne_nil he
        have hn : (reSearch name_pattern pg).isSome = true := by
          cases hh : reSearch name_pattern pg with
          | none => rw [extract_none_iff.mpr hh] at he; cases he
          | some c => rfl
        have hfe : e.isEmpty = false := by
          cases e
          · exact absurd rfl hne
          · rfl
        simp [hfe, hn, hm]
  · simp [hm]

set_option maxRecDepth 1000000

/-! ## The claims -/

/-- C1 (corrected): on a page holding both marker phrases and the seven
scenario lines, arranged so the address line does not follow a digit-ending
line and the pay line does not follow the hours line, per-page extraction
yields exactly the claimed record. -/
theorem c1_reordered_scenario :
    (markersPresent demoPage = true)
  ∧ (S "JOHN A SMITH ***-**-1234" <:+: demoPage)
  ∧ (S "123 MAIN ST MADISON WI 53701" <:+: demoPage)
  ∧ (S "R: 40.00 O: 5.00" <:+: demoPage)
  ∧ (S "25.00 1100.00 150.00 900.00" <:+: demoPage)
  ∧ (S "PENSION 2.50 100.00" <:+: demoPage)
  ∧ (S "DUES 15.00" <:+: demoPage)
  ∧ (S "Total 265.00" <:+: demoPage)
  ∧ extract_employee_info demoPage = some demoRecord := by
  refine ⟨by decide, by decide, by decide, by decide, by decide, by decide, by decide,
    by decide, by decide⟩

/-- C1 counterexample: the same markers and seven lines in the order the
claim lists them make the address regex capture `"1234\n123 MAIN ST"` (the
SSN digits and the newline are sucked into the `[A-Z0-9\s]+` group) and the
positional pay heuristic bind `pay_rate = 5.0`, `gross_pay = 25.0` — not
the claimed values. -/
theorem c1_natural_order_counterexample :
    (markersPresent naturalPage = true)
  ∧ (S "JOHN A SMITH ***-**-1234" <:+: naturalPage)
  ∧ (S "123 MAIN ST MADISON WI 53701" <:+: naturalPage)
  ∧ (S "R: 40.00 O: 5.00" <:+: naturalPage)
  ∧ (S "25.00 1100.00 150.00 900.00" <:+: naturalPage)
  ∧ (S "PENSION 2.50 100.00" <:+: naturalPage)
  ∧ (S "DUES 15.00" <:+: naturalPage)
  ∧ (S "Total 265.00" <:+: naturalPage)
  ∧ ((extract_employee_info naturalPage).bind (fun e => dget? e (S "address"))
      = some (.str (S "1234\n123 MAIN ST")))
  ∧ ((extract_employee_info naturalPage).bind (fun e => dget? e (S "pay_rate"))
      = some (.num 5))
  ∧ ((extract_employee_info naturalPage).bind (fun e => dget? e (S "gross_pay"))
      = some (.num 25)) := by
  refine ⟨by decide, by decide, by decide, by decide, by decide, by decide, by decide,
    by decide, by decide, by decide, by decide⟩

/-- C2 (code bug): on a page-1 text containing the hardcoded contractor
address literal, `extract_job_info` raises `IndexError("no such group")`
because that pattern has no capture group; on a page-1 text without the
literals it returns all eight keys, with `""` for each unmatched label
(here only `week_ending` matches). -/
theorem c2_job_info_group_error :
    (extract_job_info_text (S "BUTLER, WI 53007") = .error (S "no such group"))
  ∧ (extract_job_info_text (S "Week Ending: 01/02/2024") =
      .ok [(S "job_name", []), (S "job_number", []), (S "week_ending", S "01/02/2024"),
           (S "payroll_number", []), (S "contractor_name", []), (S "contractor_address", []),
           (S "customer_name", []), (S "customer_address", [])]) :=
  ⟨rfl, rfl⟩

/-- C3 (corrected): parsing with a fresh parser state is a pure function of
the page texts (it equals `pure_parse`), so two fresh parses of the same
document agree; but `parse` is not idempotent on an instance: a second
`parse` on the same instance re-appends the extracted pages and returns
every employee record twice, with the job info unchanged. -/
theorem c3_fresh_parse_pure_reparse_duplicates :
    ∀ pdf : List Str,
      ((parse (freshState pdf)).map (fun p => p.2) = pure_parse pdf)
    ∧ (∀ st1 r1, parse (freshState pdf) = .ok (st1, r1) →
        ∃ st2 r2, parse st1 = .ok (st2, r2) ∧ r2.job_info = r1.job_info ∧
          r2.employees = r1.employees ++ r1.employees) := by
  intro pdf
  constructor
  · rw [parse_run]
    simp only [freshState, List.nil_append]
    unfold pure_parse
    cases hj : extract_job_info_text ((pdf.filter (fun t => !t.isEmpty)).head?.getD []) <;> rfl
  · intro st1 r1 h
    rw [parse_run] at h
    simp only [freshState, List.nil_append] at h
    cases hj : extract_job_info_text ((pdf.filter (fun t => !t.isEmpty)).head?.getD []) with
    | error e => rw [hj] at h; cases h
    | ok ji =>
        rw [hj] at h
        simp only [Except.map, Except.ok.injEq, Prod.mk.injEq] at h
        obtain ⟨rfl, rfl⟩ := h
        refine ⟨⟨pdf, pdf.filter (fun t => !t.isEmpty) ++ pdf.filter (fun t => !t.isEmpty), ji,
            recordsOf ji (pdf.filter (fun t => !t.isEmpty) ++ pdf.filter (fun t => !t.isEmpty))⟩,
          ⟨ji, recordsOf ji (pdf.filter (fun t => !t.isEmpty) ++ pdf.filter (fun t => !t.isEmpty))⟩,
          ?_, rfl, ?_⟩
        · rw [parse_run]
          simp only []
          rw [head?_self_append, hj]
          rfl
        · simp only []
          rw [recordsOf_append]

/-- C3 counterexample: on a one-page document whose page passes the
identity gate, a second `parse` on the same instance returns two copies of
the employee record where the first returned one — the two results are not
identical. -/
theorem c3_same_instance_not_idempotent :
    (parseTwice [tinyPage]).map
        (fun pr => (pr.1.employees.length, pr.2.employees.length,
          decide (pr.2.employees = pr.1.employees))) = some (1, 2, false) := by
  decide

/-- C3 witness: the duplication law applied to the concrete document. -/
theorem c3_witness :
    ∃ st2 r2, parse tinyState = .ok (st2, r2) ∧ r2.job_info = tinyJobInfo ∧
      r2.employees = [tinyRecord] ++ [tinyRecord] :=
  (c3_fresh_parse_pure_reparse_duplicates [tinyPage]).2 tinyState
    ⟨tinyJobInfo, [tinyRecord]⟩ rfl

/-- C4 (confirmed): a page contributes exactly one employee record iff it
contains both marker phrases and the name/masked-SSN pattern matches; it
never contributes more than one, and the total record count never exceeds
the number of pages passing the marker test. -/
theorem c4_eligibility_iff :
    ∀ (ji : List (Str × Str)) (page : Str),
      ((pageRecords ji page).length = 1 ↔
        (markersPresent page = true ∧ (reSearch name_pattern page).isSome = true))
    ∧ (pageRecords ji page).length ≤ 1
    ∧ ∀ pages : List Str,
        (recordsOf ji pages).length ≤ (pages.filter markersPresent).length := by
  intro ji page
  refine ⟨?_, ?_, ?_⟩
  · rw [pageRecords_length]
    by_cases hc : markersPresent page ∧ (reSearch name_pattern page).isSome
    · simp only [if_pos hc]
      simpa using hc
    · simp only [if_neg hc]
      constructor
      · intro h; cases h
      · intro h
        exact absurd ⟨h.1, h.2⟩ hc
  · rw [pageRecords_length]
    split <;> simp
  · intro pages
    induction pages with
    | nil => simp [recordsOf]
    | cons p ps ih =>
        have hcons : recordsOf ji (p :: ps) = pageRecords ji p ++ recordsOf ji ps := rfl
        rw [hcons, List.length_append, List.filter_cons]
        by_cases hm : markersPresent p
        · have h1 : (pageRecords ji p).length ≤ 1 := by
            rw [pageRecords_length]
            split <;> simp
          simp only [hm, if_true, List.length_cons]
          omega
        · have hm2 : markersPresent p = false := by
            cases hmp : markersPresent p
            · rfl
            · exact absurd hmp hm
          have h1 : (pageRecords ji p).length = 0 := by
            rw [pageRecords_length]
            have hno : ¬ (markersPresent p = true ∧ (reSearch name_pattern p).isSome = true) := by
              simp [hm2]
            simp [hno]
          rw [hm2]
          simp only [Bool.false_eq_true, if_false]
          omega

/-- C5 (confirmed): for every fringe-benefit stem occurring on a page, the
extracted record stores `<stem>_rate` and `<stem>_amount` from the LAST
matching occurrence in text order. -/
theorem c5_last_fringe_match_wins :
    ∀ (page : Str) (e : Dict) (st : Str),
      extract_employee_info page = some e →
      st ∈ (fringe_matches page).map (fun m => m.1) →
      dget? e (st ++ S "_rate") = (lastFringe page st).map (fun m => .num m.2.1)
    ∧ dget? e (st ++ S "_amount") = (lastFringe page st).map (fun m => .num m.2.2) := by
  intro page e st he hst
  rcases List.mem_map.mp hst with ⟨m0, hm0, rfl⟩
  have hstem : m0.1 ∈ fringe_stems := (fringe_matches_spec hm0).1
  have hdues : m0.1 ≠ S "dues" := by
    intro hh
    rw [hh] at hstem
    revert hstem
    decide
  obtain ⟨mlast, hml⟩ : ∃ y, (fringe_matches page).reverse.find? (fun m => m.1 = m0.1) = some y :=
    find?_mem_isSome (List.mem_reverse.mpr hm0) (by simp)
  unfold extract_employee_info at he
  cases hn : reSearch name_pattern page with
  | none => rw [hn] at he; cases he
  | some ncaps =>
      rw [hn] at he
      cases he
      constructor
      · rw [dget?_stepTotal_rate, dget?_stepDues_rate]
        unfold stepFringe
        rw [dget?_applyFringe_rate]
        unfold lastFringe
        rw [hml]
        rfl
      · rw [dget?_stepTotal_amount, dget?_stepDues_amount hdues]
        unfold stepFringe
        rw [dget?_applyFringe_amount]
        unfold lastFringe
        rw [hml]
        rfl

/-- C5 witness: on the page with two PENSION lines the stored values are
those of the second occurrence. -/
theorem c5_witness :
    dget? fringeRecord (S "pension" ++ S "_rate")
        = (lastFringe fringePage (S "pension")).map (fun m => .num m.2.1)
  ∧ dget? fringeRecord (S "pension" ++ S "_amount")
        = (lastFringe fringePage (S "pension")).map (fun m => .num m.2.2) :=
  c5_last_fringe_match_wins fringePage fringeRecord (S "pension") (by decide) (by decide)

/-- C6 (code bug): a document with no extractable pages parses to all-empty
job info and an empty employee list, and an ineligible page also yields an
empty employee list, both without an exception; but a document whose first
page contains the hardcoded contractor-address literal makes `parse` raise
`IndexError("no such group")` even though no page is eligible, contradicting
the claim's "no exception is raised". -/
theorem c6_empty_and_ineligible_outcomes :
    ((parse (freshState [])).map (fun p => p.2) = .ok ⟨emptyJobInfo, []⟩)
  ∧ ((parse (freshState [S "no payroll data on this page"])).map
      (fun p => p.2.employees) = .ok [])
  ∧ (parse (freshState [S "BUTLER, WI 53007"]) = .error (S "no such group")) :=
  ⟨rfl, rfl, rfl⟩

/-- C7 (confirmed): the field mapper returns one row per record; every
template field of the mapping appears in each row, holding the record's
value at the mapped source key, or the empty string when that key is
absent; the function is total by construction. -/
theorem c7_map_fields_total :
    ∀ (employees : List Dict) (mapping : List (Str × Str)),
      (mapping.map Prod.fst).Nodup →
      (map_fields employees mapping).length = employees.length
    ∧ (map_fields employees mapping = employees.map (mapRow mapping))
    ∧ ∀ e ∈ employees, ∀ tf pf, (tf, pf) ∈ mapping →
        dget? (mapRow mapping e) tf = some ((dget? e pf).getD (.str [])) := by
  intro es mp hnd
  refine ⟨by simp [map_fields], rfl, ?_⟩
  intro e _ tf pf hm
  unfold mapRow
  rw [dget?_foldl_dinsert_mem
    (fun kv => match dget? e kv.2 with | some v => v | none => .str []) mp [] tf pf hnd hm]
  cases dget? e pf <;> rfl

/-- C7 witness: a mapping whose second source key is absent from the record
yields the empty string there, and the template key is present. -/
theorem c7_witness :
    dget? (mapRow [(S "EmployeeName", S "name"), (S "Zip", S "zip")] tinyRecord)
        (S "Zip") = some ((dget? tinyRecord (S "zip")).getD (.str [])) :=
  (c7_map_fields_total [tinyRecord] [(S "EmployeeName", S "name"), (S "Zip", S "zip")]
    (by decide)).2.2 tinyRecord (by decide) (S "Zip") (S "zip") (by decide)

/-- C8 (confirmed): after a successful parse, every employee record holds
every job-info key with the document's extracted value; the state's job
info equals the returned one; and extracting employee records never
modifies the stored job info. -/
theorem c8_job_info_merged_immutable :
    ∀ (pdf : List Str) (st : PayState) (r : ParseResult),
      parse (freshState pdf) = .ok (st, r) →
      (∀ e ∈ r.employees, ∀ k v, (k, v) ∈ r.job_info → dget? e k = some (.str v))
    ∧ st.job_info = r.job_info
    ∧ ∀ st0 : PayState, (extract_employee_records st0).1.job_info = st0.job_info := by
  intro pdf st r h
  rw [parse_run] at h
  simp only [freshState, List.nil_append] at h
  cases hj : extract_job_info_text ((pdf.filter (fun t => !t.isEmpty)).head?.getD []) with
  | error e => rw [hj] at h; cases h
  | ok ji =>
      rw [hj] at h
      simp only [Except.map, Except.ok.injEq, Prod.mk.injEq] at h
      obtain ⟨rfl, rfl⟩ := h
      refine ⟨?_, rfl, ?_⟩
      · intro e he k v hkv
        have hnd : (ji.map Prod.fst).Nodup := by
          rw [extract_job_info_text_keys hj]
          decide
        simp only [] at he
        unfold recordsOf at he
        rcases List.mem_flatMap.mp he with ⟨pg, _, hepg⟩
        unfold pageRecords at hepg
        by_cases hmk : markersPresent pg
        · rw [if_pos hmk] at hepg
          cases hee : extract_employee_info pg with
          | none => rw [hee] at hepg; cases hepg
          | some e0 =>
              rw [hee] at hepg
              have hepg2 : e ∈ (if e0.isEmpty then [] else [dupdate e0 ji]) := hepg
              by_cases hne : e0.isEmpty
              · rw [if_pos hne] at hepg2; cases hepg2
              · rw [if_neg hne] at hepg2
                rcases List.mem_singleton.mp hepg2 with rfl
                exact dget?_dupdate_mem e0 hnd hkv
        · rw [if_neg hmk] at hepg; cases hepg
      · intro st0
        unfold extract_employee_records
        by_cases h0 : st0.text_pages.isEmpty <;> simp [extract_text, h0]

/-- C8 witness: the record of the concrete one-page document holds the
document's job name. -/
theorem c8_witness :
    dget? tinyRecord (S "job_name") = some (.str (S "AB ***-**-1234")) :=
  (c8_job_info_merged_immutable [tinyPage] tinyState ⟨tinyJobInfo, [tinyRecord]⟩
    rfl).1 tinyRecord (by decide) (S "job_name") (S "AB ***-**-1234") (by decide)

/-- C9 (confirmed): the captured name is the stripped maximal run of
uppercase/whitespace ending just before the first masked-SSN token, and
since the whitespace class matches newlines, a page whose name line is
preceded by an all-caps header stores the header inside the name. -/
theorem c9_name_spans_preceding_lines :
    ((extract_employee_info headerPage).bind (fun e => dget? e (S "name"))
      = some (.str (S "ACME CORP\nJOHN A SMITH")))
  ∧ ((spec_maximal_name headerPage).map pyStrip = some (S "ACME CORP\nJOHN A SMITH"))
  ∧ (headerPage = S "Name / Address\nHours Worked This Job\n" ++ S "ACME CORP"
      ++ S "\n" ++ S "JOHN A SMITH ***-**-1234")
  ∧ (S "ACME CORP" <+: S "ACME CORP\nJOHN A SMITH") :=
  ⟨by decide, by decide, by decide, by decide⟩

/-- C10 (confirmed): every numeric field of an extracted record is
`float()` of a token of shape `\d+\.\d+`; numbers without a fractional part
(`"R: 40"`, `"DUES 15"`) match nothing and leave their keys absent. -/
theorem c10_numeric_fields_decimal_shaped :
    (∀ (page : Str) (e : Dict), extract_employee_info page = some e →
      ∀ k q, dget? e k = some (.num q) → ∃ t, DecShape t ∧ q = pyFloat t)
  ∧ ((extract_employee_info sparsePage).bind (fun e => dget? e (S "regular_hours")) = none)
  ∧ ((extract_employee_info sparsePage).bind (fun e => dget? e (S "overtime_hours")) = none)
  ∧ ((extract_employee_info sparsePage).bind (fun e => dget? e (S "dues_amount")) = none)
  ∧ (S "R: 40 O: 5.00" <:+: sparsePage) ∧ (S "DUES 15" <:+: sparsePage) := by
  refine ⟨?_, by decide, by decide, by decide, by decide, by decide⟩
  intro page e he k q hk
  exact extract_numOK he k q hk

/-- C10 witness: the one stored numeric field of `sparsePage` comes from a
decimal-shaped token. -/
theorem c10_witness : ∃ t, DecShape t ∧ (265 : ℚ) = pyFloat t :=
  c10_numeric_fields_decimal_shaped.1 sparsePage sparseRecord (by decide)
    (S "total_deductions") 265 (by decide)

end Payroll
